import Mathlib

/-!
Verification development for the GoonBot event-coordination bot
(`main.py`).  The definitions below are a shallow embedding of the
roster data model (`SCHEDULES` entries), the list helpers
(`_user_in_any_event_list`, `_append_unique_to`,
`_autofill_from_backups`), the reaction / DM / command transitions, the
scheduler tick, the waiting-queue commands and the surface-loss
recovery path.  Theorems settle the frozen claims about that code.
-/

namespace GoonBot

/-- One `SCHEDULES` entry for a `/schedule`-created event.  `players` and
`backups` are Python lists (ordered, duplicates representable);
`sherpas` and `sherpa_backup` are Python sets for this event shape.
`capacity`, `reserved_sherpas`, `signups_open`, `start_ts` and the three
reminder flags mirror the keys of the same names. -/
structure Roster where
  players : List Nat
  backups : List Nat
  sherpas : Finset Nat
  sherpa_backup : Finset Nat
  capacity : Nat
  reserved_sherpas : Nat
  signups_open : Bool
  start_ts : Option Int
  r_2h : Bool
  r_30m : Bool
  r_0m : Bool
  channel_id : Option Nat
deriving DecidableEq

/-- `player_slots = max(0, capacity - reserved)`; natural subtraction
already truncates at zero. -/
def playerSlots (r : Roster) : Nat :=
  r.capacity - r.reserved_sherpas

/-- The four event-list keys handled by `_user_in_any_event_list`,
`_remove_user_from_list` and `_append_unique_to`. -/
inductive EKey where
  | players
  | backups
  | sherpas
  | sherpa_backup
deriving DecidableEq, Repr

/-- `_user_in_any_event_list`: first list (in the source's fixed order
players, backups, sherpas, sherpa_backup) containing `uid`, if any. -/
def user_in_any_event_list (r : Roster) (uid : Nat) : Option EKey :=
  if uid ∈ r.players then some .players
  else if uid ∈ r.backups then some .backups
  else if uid ∈ r.sherpas then some .sherpas
  else if uid ∈ r.sherpa_backup then some .sherpa_backup
  else none

/-- `_append_unique_to`: append `uid` to list `key` only if `uid` is in
no event list; returns whether it was added. -/
def append_unique_to (r : Roster) (key : EKey) (uid : Nat) : Bool × Roster :=
  let ex := user_in_any_event_list r uid
  if ex ≠ none ∧ ex ≠ some key then (false, r)
  else
    match key with
    | .players =>
        if uid ∈ r.players then (false, r)
        else (true, { r with players := r.players ++ [uid] })
    | .backups =>
        if uid ∈ r.backups then (false, r)
        else (true, { r with backups := r.backups ++ [uid] })
    | .sherpas =>
        if uid ∈ r.sherpas then (false, r)
        else (true, { r with sherpas := insert uid r.sherpas })
    | .sherpa_backup =>
        if uid ∈ r.sherpa_backup then (false, r)
        else (true, { r with sherpa_backup := insert uid r.sherpa_backup })

/-- Pure core of `_autofill_from_backups`: the
`while len(participants) < player_slots and backups:` loop.  Pops the
head of `backups`; appends it to `players` (and records it in `moved`)
unless it is already a player.  Returns
`(players', backups', moved)`. -/
def autofill (slots : Nat) : List Nat → List Nat → List Nat × List Nat × List Nat
  | players, [] => (players, [], [])
  | players, b :: rest =>
      if players.length < slots then
        if b ∈ players then autofill slots players rest
        else
          let res := autofill slots (players ++ [b]) rest
          (res.1, res.2.1, b :: res.2.2)
      else (players, b :: rest, [])

/-- `_autofill_from_backups` applied to a roster: rewrites `players`
and `backups`, returns the `moved` list. -/
def autofill_from_backups (r : Roster) : Roster × List Nat :=
  let res := autofill (playerSlots r) r.players r.backups
  ({ r with players := res.1, backups := res.2.1 }, res.2.2)

/-- `participants[:] = [x for x in participants if x != uid]` followed by
`_autofill_from_backups(data)`, guarded by `uid in participants` — the
shared leave-from-players mutation. -/
def leave_players (uid : Nat) (r : Roster) : Roster :=
  if uid ∈ r.players then
    (autofill_from_backups { r with players := r.players.filter (· ≠ uid) }).1
  else r

/-- `backups[:] = [x for x in backups if x != uid]`, guarded by
`uid in backups` — the shared leave-from-backups mutation. -/
def leave_backups (uid : Nat) (r : Roster) : Roster :=
  if uid ∈ r.backups then { r with backups := r.backups.filter (· ≠ uid) }
  else r

/-- Reactions whitelisted on the main event embed: ✅ (`check`),
📝 (`memo`), 🔁 (`cycle`), ❌ (`cross`). -/
inductive Emoji where
  | check
  | memo
  | cycle
  | cross
deriving DecidableEq

/-- `on_raw_reaction_add` for the main event embed of a
`/schedule`-created event (`data` has `reserved_sherpas` and is not a
`user_event`).  `isSherpa` is `_is_sherpa(member)`: such members have
their reaction removed and are redirected, so the roster is untouched.
📝/🔁 append to `backups` after the cross-list check; ✅ acts as a
backup request before `signups_open` and as a join afterwards; ❌
removes from `players` (running autofill) and from `backups`. -/
def react_add (uid : Nat) (isSherpa : Bool) (e : Emoji) (r : Roster) : Roster :=
  if isSherpa then r
  else
    match e with
    | .memo | .cycle =>
        if user_in_any_event_list r uid = none then
          { r with backups := r.backups ++ [uid] }
        else r
    | .check =>
        if r.signups_open = false then
          if user_in_any_event_list r uid = none then
            { r with backups := r.backups ++ [uid] }
          else r
        else if user_in_any_event_list r uid ≠ none then r
        else if r.players.length < playerSlots r then
          { r with players := r.players ++ [uid] }
        else { r with backups := r.backups ++ [uid] }
    | .cross => leave_backups uid (leave_players uid r)

/-- `on_raw_reaction_remove` for ✅ on the main event embed: when
signups are open, leave `players` (and autofill); before opening, leave
`backups`. -/
def react_remove_check (uid : Nat) (r : Roster) : Roster :=
  if r.signups_open then leave_players uid r
  else leave_backups uid r

/-- `ConfirmView.yes` (DM Confirm): join `players` when below
`player_slots`, else `backups`, both through `_append_unique_to`. -/
def dm_confirm (uid : Nat) (r : Roster) : Roster :=
  if r.players.length < playerSlots r then (append_unique_to r .players uid).2
  else (append_unique_to r .backups uid).2

/-- `ConfirmView.no` (DM Decline): drop the member from `players` and
autofill. -/
def dm_decline (uid : Nat) (r : Roster) : Roster :=
  leave_players uid r

/-- `SherpaConfirmView.yes`: claim a reserved sherpa slot when below
`reserved_sherpas`, else become sherpa backup. -/
def sherpa_confirm (uid : Nat) (r : Roster) : Roster :=
  if uid ∈ r.sherpas then r
  else if r.sherpas.card < r.reserved_sherpas then (append_unique_to r .sherpas uid).2
  else (append_unique_to r .sherpa_backup uid).2

/-- `SherpaConfirmView.no`: discard the member from `sherpas` and
`sherpa_backup`. -/
def sherpa_decline (uid : Nat) (r : Roster) : Roster :=
  { r with sherpas := r.sherpas.erase uid, sherpa_backup := r.sherpa_backup.erase uid }

/-- ✅ on the Sherpa signup alert (`on_raw_reaction_add`, alert branch,
restricted to sherpa assistants).  The source computes
`exists = _user_in_any_event_list(...)` and proceeds when that is
`None` **or** `"sherpas"`; inside, a member already in `sherpas` fails
the `member.id not in sherpas` test and falls into `backup.add`. -/
def alert_react_check (uid : Nat) (isAssistant : Bool) (r : Roster) : Roster :=
  if isAssistant = false then r
  else
    let ex := user_in_any_event_list r uid
    if ex = none ∨ ex = some .sherpas then
      if r.sherpas.card < r.reserved_sherpas ∧ uid ∉ r.sherpas then
        { r with sherpas := insert uid r.sherpas }
      else { r with sherpa_backup := insert uid r.sherpa_backup }
    else r

/-- 🔁 on the Sherpa signup alert: backup request with cross-list
check. -/
def alert_react_cycle (uid : Nat) (isAssistant : Bool) (r : Roster) : Roster :=
  if isAssistant = false then r
  else
    if user_in_any_event_list r uid = none then
      { r with sherpa_backup := insert uid r.sherpa_backup }
    else r

/-- `/promote` with event context (`promote_cmd`, event-update block):
discard the user from `sherpa_backup`, then add to `sherpas` if not
already there — with no check of `players`/`backups` and no
reserved-slot bound. -/
def promote_discard (uid : Nat) (r : Roster) : Roster :=
  if uid ∈ r.sherpa_backup then { r with sherpa_backup := r.sherpa_backup.erase uid }
  else r

def promote_add (uid : Nat) (r : Roster) : Roster :=
  if uid ∈ r.sherpas then r
  else { r with sherpas := insert uid r.sherpas }

def promote_event (uid : Nat) (authorized : Bool) (r : Roster) : Roster :=
  if authorized = false then r
  else promote_add uid (promote_discard uid r)

/-- `/add` with a `message_id` (event branch of `add_cmd`). -/
def add_event (uid : Nat) (authorized : Bool) (r : Roster) : Roster :=
  if authorized = false then r
  else if user_in_any_event_list r uid ≠ none then r
  else if r.players.length < playerSlots r then
    { r with players := r.players ++ [uid] }
  else { r with backups := r.backups ++ [uid] }

/-- Shared mutation of `/remove` (event branch of `remove_cmd`) and
`/leave` (event branch of `leave_cmd`): drop from `players` (running
autofill), then drop from `backups`. -/
def remove_event (uid : Nat) (authorized : Bool) (r : Roster) : Roster :=
  if authorized = false then r
  else leave_backups uid (leave_players uid r)

/-- Labels of the three DM reminders fired by the scheduler. -/
inductive RLabel where
  | two_h
  | thirty_m
  | start_l
deriving DecidableEq

/-- Observable effects of one scheduler pass over one roster. -/
structure TickEffects where
  announced : Bool
  reminders : List RLabel
deriving DecidableEq

/-- One `_scheduler_loop` pass over one non-sherpa-only roster.  A
missing `start_ts` is skipped (`continue`).  At `now ≥ start − 2h`,
signups open **only if** `len(players) < player_slots`; the branch runs
autofill, and when `LFG_CHAT_CHANNEL_ID` is configured runs autofill
again and posts the slots-open announcement.  Then the three reminders
fire in order, each guarded by its one-shot flag, which is set
immediately after firing. -/
def tick_open (lfg : Bool) (now ts : Int) (r : Roster) : Roster × Bool :=
  if r.signups_open = false ∧ now ≥ ts - 7200 ∧ r.players.length < playerSlots r then
    if lfg then
      ((autofill_from_backups
          (autofill_from_backups { r with signups_open := true }).1).1, true)
    else ((autofill_from_backups { r with signups_open := true }).1, false)
  else (r, false)

def tick_r2h (now ts : Int) (r : Roster) : Roster × List RLabel :=
  if r.r_2h = false ∧ now ≥ ts - 7200 then ({ r with r_2h := true }, [RLabel.two_h])
  else (r, [])

def tick_r30 (now ts : Int) (r : Roster) : Roster × List RLabel :=
  if r.r_30m = false ∧ now ≥ ts - 1800 then ({ r with r_30m := true }, [RLabel.thirty_m])
  else (r, [])

def tick_r0 (now ts : Int) (r : Roster) : Roster × List RLabel :=
  if r.r_0m = false ∧ now ≥ ts then ({ r with r_0m := true }, [RLabel.start_l])
  else (r, [])

def tick (lfg : Bool) (now : Int) (r : Roster) : Roster × TickEffects :=
  match r.start_ts with
  | none => (r, ⟨false, []⟩)
  | some ts =>
      ((tick_r0 now ts (tick_r30 now ts (tick_r2h now ts (tick_open lfg now ts r).1).1).1).1,
        ⟨(tick_open lfg now ts r).2,
          (tick_r2h now ts (tick_open lfg now ts r).1).2 ++
          (tick_r30 now ts (tick_r2h now ts (tick_open lfg now ts r).1).1).2 ++
          (tick_r0 now ts (tick_r30 now ts (tick_r2h now ts (tick_open lfg now ts r).1).1).1).2⟩)

/-- All modelled transitions against one roster. -/
inductive Event where
  | reactAdd (e : Emoji) (uid : Nat) (isSherpa : Bool)
  | reactRemoveCheck (uid : Nat)
  | dmConfirm (uid : Nat)
  | dmDecline (uid : Nat)
  | sherpaConfirm (uid : Nat)
  | sherpaDecline (uid : Nat)
  | alertCheck (uid : Nat) (isAssistant : Bool)
  | alertCycle (uid : Nat) (isAssistant : Bool)
  | promote (uid : Nat) (authorized : Bool)
  | addCmd (uid : Nat) (authorized : Bool)
  | removeCmd (uid : Nat) (authorized : Bool)
  | leaveCmd (uid : Nat)
  | tickEv (lfg : Bool) (now : Int)
deriving DecidableEq

/-- Dispatch one event to its handler (roster part only). -/
def step (ev : Event) (r : Roster) : Roster :=
  match ev with
  | .reactAdd e uid s => react_add uid s e r
  | .reactRemoveCheck uid => react_remove_check uid r
  | .dmConfirm uid => dm_confirm uid r
  | .dmDecline uid => dm_decline uid r
  | .sherpaConfirm uid => sherpa_confirm uid r
  | .sherpaDecline uid => sherpa_decline uid r
  | .alertCheck uid a => alert_react_check uid a r
  | .alertCycle uid a => alert_react_cycle uid a r
  | .promote uid a => promote_event uid a r
  | .addCmd uid a => add_event uid a r
  | .removeCmd uid a => remove_event uid a r
  | .leaveCmd uid => remove_event uid true r
  | .tickEv lfg now => (tick lfg now r).1

/-- Core invariant of the spec: a member ID is in at most one of the
four lists of a roster. -/
def crossListExclusive (r : Roster) : Prop :=
  (∀ u ∈ r.players, u ∉ r.backups ∧ u ∉ r.sherpas ∧ u ∉ r.sherpa_backup) ∧
  (∀ u ∈ r.backups, u ∉ r.sherpas ∧ u ∉ r.sherpa_backup) ∧
  (∀ u ∈ r.sherpas, u ∉ r.sherpa_backup)

instance (r : Roster) : Decidable (crossListExclusive r) := by
  unfold crossListExclusive; infer_instance

/-- Capacity bound on ordinary participants. -/
def playersBound (r : Roster) : Prop :=
  r.players.length ≤ playerSlots r

/-- Capacity bound on reserved-role holders. -/
def sherpasBound (r : Roster) : Prop :=
  r.sherpas.card ≤ r.reserved_sherpas

instance (r : Roster) : Decidable (playersBound r) := by
  unfold playersBound; infer_instance

instance (r : Roster) : Decidable (sherpasBound r) := by
  unfold sherpasBound; infer_instance

/-- Concrete roster: capacity 6, two reserved sherpa slots, member 1
already holds a sherpa slot, promoter 9 is the sole player. -/
def rAlert : Roster :=
  { players := [9], backups := [], sherpas := {1}, sherpa_backup := ∅,
    capacity := 6, reserved_sherpas := 2, signups_open := false,
    start_ts := some 10000, r_2h := false, r_30m := false, r_0m := false,
    channel_id := some 100 }

/-- Concrete roster: one reserved sherpa slot, already held by member
1; both capacity bounds hold. -/
def rPromote : Roster :=
  { players := [9], backups := [], sherpas := {1}, sherpa_backup := ∅,
    capacity := 6, reserved_sherpas := 1, signups_open := false,
    start_ts := some 10000, r_2h := false, r_30m := false, r_0m := false,
    channel_id := some 100 }

/-- Concrete forming-state roster: signups not yet open, all lists
empty. -/
def rForming : Roster :=
  { players := [], backups := [], sherpas := ∅, sherpa_backup := ∅,
    capacity := 6, reserved_sherpas := 2, signups_open := false,
    start_ts := some 10000, r_2h := false, r_30m := false, r_0m := false,
    channel_id := some 100 }

/-- Concrete roster whose player slots (6 − 2 = 4) are already full,
with backups waiting and signups not yet open. -/
def rFull : Roster :=
  { players := [1, 2, 3, 4], backups := [7, 8], sherpas := {5}, sherpa_backup := ∅,
    capacity := 6, reserved_sherpas := 2, signups_open := false,
    start_ts := some 10000, r_2h := false, r_30m := false, r_0m := false,
    channel_id := some 100 }

/-- `rFull` with one player slot open. -/
def rPartial : Roster :=
  { players := [1, 2, 3], backups := [7, 8], sherpas := {5}, sherpa_backup := ∅,
    capacity := 6, reserved_sherpas := 2, signups_open := false,
    start_ts := some 10000, r_2h := false, r_30m := false, r_0m := false,
    channel_id := some 100 }

/-- A roster with no `start_ts` (time-based transitions must skip
it). -/
def rNoStart : Roster :=
  { players := [1, 2], backups := [7], sherpas := ∅, sherpa_backup := ∅,
    capacity := 6, reserved_sherpas := 2, signups_open := false,
    start_ts := none, r_2h := false, r_30m := false, r_0m := false,
    channel_id := some 100 }

/-- `QUEUES.setdefault(act, []).append(uid)`: append `uid` to the queue
for `act`, creating the queue if missing (`QUEUES` modelled as an
association list with distinct keys, like a Python dict). -/
def queueAppend : List (String × List Nat) → String → Nat → List (String × List Nat)
  | [], act, uid => [(act, [uid])]
  | (k, l) :: rest, act, uid =>
      if k = act then (k, l ++ [uid]) :: rest
      else (k, l) :: queueAppend rest act uid

/-- `_ensure_queue(act)` alone: create an empty queue if missing. -/
def ensureQueue : List (String × List Nat) → String → List (String × List Nat)
  | [], act => [(act, [])]
  | (k, l) :: rest, act =>
      if k = act then (k, l) :: rest
      else (k, l) :: ensureQueue rest act

/-- `QUEUES.get(act, [])`. -/
def queueGet (qs : List (String × List Nat)) (act : String) : List Nat :=
  match qs.find? (fun p => p.1 = act) with
  | some p => p.2
  | none => []

/-- `in_any = [a for a, lst in QUEUES.items() if uid in lst]` of
`join_cmd`. -/
def queuesWith (qs : List (String × List Nat)) (uid : Nat) : List String :=
  (qs.filter (fun p => uid ∈ p.2)).map Prod.fst

/-- Number of distinct waiting queues currently holding `uid`. -/
def queuesCountFor (qs : List (String × List Nat)) (uid : Nat) : Nat :=
  qs.countP (fun p => uid ∈ p.2)

/-- Invariant: a member is in at most 2 distinct waiting queues. -/
def maxTwoQueues (qs : List (String × List Nat)) : Prop :=
  ∀ uid, queuesCountFor qs uid ≤ 2

/-- `/join` (queue mutation of `join_cmd`): reject when already in that
queue or already in 2 queues; otherwise append. -/
def join_queue (qs : List (String × List Nat)) (act : String) (uid : Nat) :
    List (String × List Nat) :=
  if act ∈ queuesWith qs uid then qs
  else if 2 ≤ (queuesWith qs uid).length then qs
  else queueAppend qs act uid

/-- `/add` with an activity (queue branch of `add_cmd`): ensure the
queue, reject only same-queue duplicates, append — **no** max-2
check. -/
def add_queue (qs : List (String × List Nat)) (act : String) (uid : Nat) :
    List (String × List Nat) :=
  if uid ∈ queueGet (ensureQueue qs act) act then ensureQueue qs act
  else queueAppend (ensureQueue qs act) act uid

/-- Queue mutation shared by `/leave` and `/remove`
(`q[:] = [x for x in q if x != uid]` on the queue for `act`; filtering
an unlisted member is the source's no-op branch). -/
def remove_from_queue (qs : List (String × List Nat)) (act : String) (uid : Nat) :
    List (String × List Nat) :=
  qs.map (fun p => if p.1 = act then (p.1, p.2.filter (· ≠ uid)) else p)

/-- Two queues both holding member 5. -/
def qs0 : List (String × List Nat) := [("vault", [5]), ("crota", [5])]

/-- `SCHEDULES` plus the identity of the roster objects its values
alias: message ids resolve to references into a heap of rosters, so
two keys mapping to one reference share one mutable roster, exactly as
two Python dict keys holding the same `data` dict do. -/
structure BotState where
  schedules : List (Nat × Nat)
  heap : List (Nat × Roster)

/-- Python dict assignment `m[k] = v`. -/
def dictSet : List (Nat × Nat) → Nat → Nat → List (Nat × Nat)
  | [], k, v => [(k, v)]
  | (k1, v1) :: rest, k, v =>
      if k1 = k then (k, v) :: rest
      else (k1, v1) :: dictSet rest k v

/-- Python dict lookup `m.get(k)`. -/
def dictGet (m : List (Nat × Nat)) (k : Nat) : Option Nat :=
  match m.find? (fun p => p.1 = k) with
  | some p => some p.2
  | none => none

/-- In-place mutation of the roster object behind `ref`. -/
def heapUpdate (h : List (Nat × Roster)) (ref : Nat) (f : Roster → Roster) :
    List (Nat × Roster) :=
  h.map (fun p => if p.1 = ref then (p.1, f p.2) else p)

/-- Read the roster object behind `ref`. -/
def heapGet (h : List (Nat × Roster)) (ref : Nat) : Option Roster :=
  match h.find? (fun p => p.1 = ref) with
  | some p => some p.2
  | none => none

/-- `on_message_delete` recovery: when the deleted message is a tracked
event, the handler reposts the card, then maps the new message id to
the same roster object (`SCHEDULES[new_mid] = data`), keeps the old id
mapped (`SCHEDULES[message.id] = data`) and re-points the roster's
`channel_id` at the recreated message's channel. -/
def on_message_delete (st : BotState) (mid new_mid new_ch : Nat) : BotState :=
  match dictGet st.schedules mid with
  | none => st
  | some ref =>
      { schedules := dictSet (dictSet st.schedules new_mid ref) mid ref,
        heap := heapUpdate st.heap ref
          (fun r => { r with channel_id := some new_ch }) }

/-- A Leave addressed through a message id (`leave_cmd` with
`message_id`): mutates whichever roster object the id resolves to. -/
def leaveVia (st : BotState) (mid uid : Nat) : BotState :=
  match dictGet st.schedules mid with
  | none => st
  | some ref => { st with heap := heapUpdate st.heap ref (remove_event uid true) }

/-- The dedup loop of `schedule_cmd`: skip pre-slotted sherpas, keep
first occurrences of everyone else. -/
def uniq_participants (sherpa_ids : Finset Nat) (seen : Finset Nat) :
    List Nat → List Nat
  | [] => []
  | u :: rest =>
      if u ∈ sherpa_ids then uniq_participants sherpa_ids seen rest
      else if u ∈ seen then uniq_participants sherpa_ids seen rest
      else u :: uniq_participants sherpa_ids (insert u seen) rest

/-- `/schedule` pre-slot construction (`schedule_cmd`):
`reserved = max(0, min(reserved_sherpas, cap))`; the promoter is
inserted at the head of `participant_ids` when absent; the deduped
non-sherpa participants are split at `player_slots` into players and
backups; sherpas are stored as given; signups start closed with all
reminder flags clear. -/
def schedule_initial (cap : Nat) (reserved_req : Int) (promoter : Nat)
    (sherpa_ids : Finset Nat) (participant_ids : List Nat)
    (start_ts : Option Int) (channel : Nat) : Roster :=
  { players := (uniq_participants sherpa_ids ∅
      (if promoter ∈ participant_ids then participant_ids
        else promoter :: participant_ids)).take
      (cap - (min reserved_req (cap : Int)).toNat),
    backups := (uniq_participants sherpa_ids ∅
      (if promoter ∈ participant_ids then participant_ids
        else promoter :: participant_ids)).drop
      (cap - (min reserved_req (cap : Int)).toNat),
    sherpas := sherpa_ids,
    sherpa_backup := ∅,
    capacity := cap,
    reserved_sherpas := (min reserved_req (cap : Int)).toNat,
    signups_open := false,
    start_ts := start_ts,
    r_2h := false, r_30m := false, r_0m := false,
    channel_id := some channel }

/-- The one-shot flag guarding each reminder label (`r_2h`, `r_30m`,
`r_0m`). -/
def flagOf (l : RLabel) (r : Roster) : Bool :=
  match l with
  | .two_h => r.r_2h
  | .thirty_m => r.r_30m
  | .start_l => r.r_0m

/-- Iterated scheduler passes over one roster, collecting every
reminder label fired across the run. -/
def runTicks (lfg : Bool) (r : Roster) : List Int → Roster × List RLabel
  | [] => (r, [])
  | t :: rest =>
      ((runTicks lfg (tick lfg t r).1 rest).1,
        (tick lfg t r).2.reminders ++ (runTicks lfg (tick lfg t r).1 rest).2)

theorem autofill_post (slots : Nat) (b : List Nat) : ∀ p : List Nat,
    (autofill slots p b).2.1 = [] ∨ slots ≤ (autofill slots p b).1.length := by
  induction b with
  | nil => intro p; left; rfl
  | cons x rest ih =>
      intro p
      by_cases h : p.length < slots
      · by_cases hx : x ∈ p
        · simpa [autofill, h, hx] using ih p
        · simpa [autofill, h, hx] using ih (p ++ [x])
      · right
        simp [autofill, h]
        omega

theorem autofill_stable (slots : Nat) (p b : List Nat)
    (h : b = [] ∨ slots ≤ p.length) :
    autofill slots p b = (p, b, []) := by
  rcases h with h | h
  · subst h; rfl
  · cases b with
    | nil => rfl
    | cons x rest =>
        have hlt : ¬ p.length < slots := by omega
        simp [autofill, hlt]

theorem autofill_len_le (slots : Nat) (b : List Nat) : ∀ p : List Nat,
    p.length ≤ slots → (autofill slots p b).1.length ≤ slots := by
  induction b with
  | nil => intro p h; simpa [autofill] using h
  | cons x rest ih =>
      intro p h
      by_cases hlt : p.length < slots
      · by_cases hx : x ∈ p
        · simpa [autofill, hlt, hx] using ih p h
        · have h2 : (p ++ [x]).length ≤ slots := by
            simp only [List.length_append, List.length_cons, List.length_nil]
            omega
          simpa [autofill, hlt, hx] using ih (p ++ [x]) h2
      · simpa [autofill, hlt] using h

theorem afb_fields (r : Roster) :
    (autofill_from_backups r).1.sherpas = r.sherpas ∧
    (autofill_from_backups r).1.reserved_sherpas = r.reserved_sherpas ∧
    (autofill_from_backups r).1.capacity = r.capacity := by
  refine ⟨rfl, rfl, rfl⟩

theorem playersBound_afb (r : Roster) (h : playersBound r) :
    playersBound (autofill_from_backups r).1 := by
  simp only [playersBound, playerSlots, autofill_from_backups] at *
  exact autofill_len_le _ _ _ h

theorem playersBound_backups_update (r : Roster) (l : List Nat)
    (h : playersBound r) : playersBound { r with backups := l } := h

theorem playersBound_filter_players (r : Roster) (f : Nat → Bool)
    (h : playersBound r) : playersBound { r with players := r.players.filter f } := by
  simp only [playersBound, playerSlots] at *
  exact le_trans (List.length_filter_le _ _) h

theorem append_unique_players_cases (r : Roster) (uid : Nat) :
    (append_unique_to r .players uid).2.players = r.players ∨
    (append_unique_to r .players uid).2.players = r.players ++ [uid] := by
  simp only [append_unique_to]
  split
  · exact Or.inl rfl
  · split
    · exact Or.inl rfl
    · exact Or.inr rfl

theorem append_unique_backups_fields (r : Roster) (uid : Nat) :
    (append_unique_to r .backups uid).2.players = r.players ∧
    (append_unique_to r .backups uid).2.sherpas = r.sherpas ∧
    (append_unique_to r .backups uid).2.reserved_sherpas = r.reserved_sherpas ∧
    (append_unique_to r .backups uid).2.capacity = r.capacity := by
  simp only [append_unique_to]
  split
  · exact ⟨rfl, rfl, rfl, rfl⟩
  · split
    · exact ⟨rfl, rfl, rfl, rfl⟩
    · exact ⟨rfl, rfl, rfl, rfl⟩

theorem append_unique_sherpas_cases (r : Roster) (uid : Nat) :
    ((append_unique_to r .sherpas uid).2.sherpas = r.sherpas ∨
      (append_unique_to r .sherpas uid).2.sherpas = insert uid r.sherpas) ∧
    (append_unique_to r .sherpas uid).2.players = r.players ∧
    (append_unique_to r .sherpas uid).2.reserved_sherpas = r.reserved_sherpas ∧
    (append_unique_to r .sherpas uid).2.capacity = r.capacity := by
  simp only [append_unique_to]
  split
  · exact ⟨Or.inl rfl, rfl, rfl, rfl⟩
  · split
    · exact ⟨Or.inl rfl, rfl, rfl, rfl⟩
    · exact ⟨Or.inr rfl, rfl, rfl, rfl⟩

theorem append_unique_sbackup_fields (r : Roster) (uid : Nat) :
    (append_unique_to r .sherpa_backup uid).2.players = r.players ∧
    (append_unique_to r .sherpa_backup uid).2.sherpas = r.sherpas ∧
    (append_unique_to r .sherpa_backup uid).2.reserved_sherpas = r.reserved_sherpas ∧
    (append_unique_to r .sherpa_backup uid).2.capacity = r.capacity := by
  simp only [append_unique_to]
  split
  · exact ⟨rfl, rfl, rfl, rfl⟩
  · split
    · exact ⟨rfl, rfl, rfl, rfl⟩
    · exact ⟨rfl, rfl, rfl, rfl⟩

theorem playersBound_leave_players (uid : Nat) (r : Roster)
    (h : playersBound r) : playersBound (leave_players uid r) := by
  unfold leave_players
  split
  · exact playersBound_afb _ (playersBound_filter_players r _ h)
  · exact h

theorem playersBound_leave_backups (uid : Nat) (r : Roster)
    (h : playersBound r) : playersBound (leave_backups uid r) := by
  unfold leave_backups
  split
  · exact h
  · exact h

theorem leave_players_fields (uid : Nat) (r : Roster) :
    (leave_players uid r).sherpas = r.sherpas ∧
    (leave_players uid r).sherpa_backup = r.sherpa_backup ∧
    (leave_players uid r).reserved_sherpas = r.reserved_sherpas ∧
    (leave_players uid r).capacity = r.capacity := by
  unfold leave_players
  split <;> exact ⟨rfl, rfl, rfl, rfl⟩

theorem leave_backups_fields (uid : Nat) (r : Roster) :
    (leave_backups uid r).players = r.players ∧
    (leave_backups uid r).sherpas = r.sherpas ∧
    (leave_backups uid r).sherpa_backup = r.sherpa_backup ∧
    (leave_backups uid r).reserved_sherpas = r.reserved_sherpas ∧
    (leave_backups uid r).capacity = r.capacity := by
  unfold leave_backups
  split <;> exact ⟨rfl, rfl, rfl, rfl, rfl⟩

theorem playersBound_remove_event (uid : Nat) (a : Bool) (r : Roster)
    (h : playersBound r) : playersBound (remove_event uid a r) := by
  unfold remove_event
  split
  · exact h
  · exact playersBound_leave_backups _ _ (playersBound_leave_players _ _ h)

theorem sherpas_remove_event (uid : Nat) (a : Bool) (r : Roster) :
    (remove_event uid a r).sherpas = r.sherpas ∧
    (remove_event uid a r).reserved_sherpas = r.reserved_sherpas := by
  unfold remove_event
  split
  · exact ⟨rfl, rfl⟩
  · refine ⟨?_, ?_⟩
    · rw [(leave_backups_fields _ _).2.1, (leave_players_fields _ _).1]
    · rw [(leave_backups_fields _ _).2.2.2.1, (leave_players_fields _ _).2.2.1]

theorem playersBound_congr (r r' : Roster) (h : playersBound r)
    (hp : r'.players = r.players) (hres : r'.reserved_sherpas = r.reserved_sherpas)
    (hcap : r'.capacity = r.capacity) : playersBound r' := by
  simp only [playersBound, playerSlots, hp, hres, hcap] at *
  exact h

theorem sherpasBound_congr (r r' : Roster) (h : sherpasBound r)
    (hs : r'.sherpas = r.sherpas) (hres : r'.reserved_sherpas = r.reserved_sherpas) :
    sherpasBound r' := by
  simp only [sherpasBound, hs, hres] at *
  exact h

theorem append_unique_players_fields (r : Roster) (uid : Nat) :
    (append_unique_to r .players uid).2.sherpas = r.sherpas ∧
    (append_unique_to r .players uid).2.reserved_sherpas = r.reserved_sherpas ∧
    (append_unique_to r .players uid).2.capacity = r.capacity := by
  simp only [append_unique_to]
  split
  · exact ⟨rfl, rfl, rfl⟩
  · split
    · exact ⟨rfl, rfl, rfl⟩
    · exact ⟨rfl, rfl, rfl⟩

theorem playersBound_step (ev : Event) (r : Roster) (h : playersBound r) :
    playersBound (step ev r) := by
  cases ev with
  | reactAdd e uid s =>
      cases e with
      | memo =>
          simp only [step, react_add]
          split
          · exact h
          · split
            · exact playersBound_backups_update r _ h
            · exact h
      | cycle =>
          simp only [step, react_add]
          split
          · exact h
          · split
            · exact playersBound_backups_update r _ h
            · exact h
      | check =>
          simp only [step, react_add]
          split
          · exact h
          · split
            · split
              · exact playersBound_backups_update r _ h
              · exact h
            · split
              · exact h
              · split
                · rename_i hlt
                  simp only [playersBound, playerSlots, List.length_append,
                    List.length_cons, List.length_nil] at *
                  omega
                · exact playersBound_backups_update r _ h
      | cross =>
          simp only [step, react_add]
          split
          · exact h
          · exact playersBound_leave_backups _ _ (playersBound_leave_players _ _ h)
  | reactRemoveCheck uid =>
      simp only [step, react_remove_check]
      split
      · exact playersBound_leave_players _ _ h
      · exact playersBound_leave_backups _ _ h
  | dmConfirm uid =>
      simp only [step, dm_confirm]
      split
      · rename_i hlt
        rcases append_unique_players_cases r uid with hc | hc
        · refine playersBound_congr r _ h hc ?_ ?_
          · exact (append_unique_players_fields r uid).2.1
          · exact (append_unique_players_fields r uid).2.2
        · have hfr := (append_unique_players_fields r uid).2.1
          have hfc := (append_unique_players_fields r uid).2.2
          simp only [playersBound, playerSlots, hc, hfr, hfc, List.length_append,
            List.length_cons, List.length_nil] at *
          omega
      · refine playersBound_congr r _ h ?_ ?_ ?_
        · exact (append_unique_backups_fields r uid).1
        · exact (append_unique_backups_fields r uid).2.2.1
        · exact (append_unique_backups_fields r uid).2.2.2
  | dmDecline uid =>
      exact playersBound_leave_players _ _ h
  | sherpaConfirm uid =>
      simp only [step, sherpa_confirm]
      split
      · exact h
      · split
        · refine playersBound_congr r _ h ?_ ?_ ?_
          · exact (append_unique_sherpas_cases r uid).2.1
          · exact (append_unique_sherpas_cases r uid).2.2.1
          · exact (append_unique_sherpas_cases r uid).2.2.2
        · refine playersBound_congr r _ h ?_ ?_ ?_
          · exact (append_unique_sbackup_fields r uid).1
          · exact (append_unique_sbackup_fields r uid).2.2.1
          · exact (append_unique_sbackup_fields r uid).2.2.2
  | sherpaDecline uid =>
      exact playersBound_congr r _ h rfl rfl rfl
  | alertCheck uid a =>
      simp only [step, alert_react_check]
      split
      · exact h
      · split
        · split
          · exact playersBound_congr r _ h rfl rfl rfl
          · exact playersBound_congr r _ h rfl rfl rfl
        · exact h
  | alertCycle uid a =>
      simp only [step, alert_react_cycle]
      split
      · exact h
      · split
        · exact playersBound_congr r _ h rfl rfl rfl
        · exact h
  | promote uid a =>
      simp only [step, promote_event, promote_add, promote_discard]
      split
      · exact h
      · split <;> split <;> exact playersBound_congr r _ h rfl rfl rfl
  | addCmd uid a =>
      simp only [step, add_event]
      split
      · exact h
      · split
        · exact h
        · split
          · rename_i hlt
            simp only [playersBound, playerSlots, List.length_append,
              List.length_cons, List.length_nil] at *
            omega
          · exact playersBound_backups_update r _ h
  | removeCmd uid a =>
      exact playersBound_remove_event _ _ _ h
  | leaveCmd uid =>
      exact playersBound_remove_event _ _ _ h
  | tickEv lfg now =>
      simp only [step, tick]
      cases hst : r.start_ts with
      | none => exact h
      | some ts =>
          have h1 : playersBound (tick_open lfg now ts r).1 := by
            simp only [tick_open]
            split
            · split
              · exact playersBound_afb _ (playersBound_afb _ h)
              · exact playersBound_afb _ h
            · exact h
          have h2 : playersBound (tick_r2h now ts (tick_open lfg now ts r).1).1 := by
            simp only [tick_r2h]
            split
            · exact playersBound_congr _ _ h1 rfl rfl rfl
            · exact h1
          have h3 : playersBound
              (tick_r30 now ts (tick_r2h now ts (tick_open lfg now ts r).1).1).1 := by
            simp only [tick_r30]
            split
            · exact playersBound_congr _ _ h2 rfl rfl rfl
            · exact h2
          simp only [tick_r0]
          split
          · exact playersBound_congr _ _ h3 rfl rfl rfl
          · exact h3

theorem sherpasBound_step (ev : Event) (r : Roster) (h : sherpasBound r)
    (hnp : ∀ u a, ev ≠ Event.promote u a) : sherpasBound (step ev r) := by
  cases ev with
  | reactAdd e uid s =>
      cases e with
      | memo =>
          simp only [step, react_add]
          split
          · exact h
          · split
            · exact sherpasBound_congr r _ h rfl rfl
            · exact h
      | cycle =>
          simp only [step, react_add]
          split
          · exact h
          · split
            · exact sherpasBound_congr r _ h rfl rfl
            · exact h
      | check =>
          simp only [step, react_add]
          split
          · exact h
          · split
            · split
              · exact sherpasBound_congr r _ h rfl rfl
              · exact h
            · split
              · exact h
              · split
                · exact sherpasBound_congr r _ h rfl rfl
                · exact sherpasBound_congr r _ h rfl rfl
      | cross =>
          simp only [step, react_add]
          split
          · exact h
          · refine sherpasBound_congr r _ h ?_ ?_
            · rw [(leave_backups_fields _ _).2.1, (leave_players_fields _ _).1]
            · rw [(leave_backups_fields _ _).2.2.2.1, (leave_players_fields _ _).2.2.1]
  | reactRemoveCheck uid =>
      simp only [step, react_remove_check]
      split
      · refine sherpasBound_congr r _ h ?_ ?_
        · exact (leave_players_fields _ _).1
        · exact (leave_players_fields _ _).2.2.1
      · refine sherpasBound_congr r _ h ?_ ?_
        · exact (leave_backups_fields _ _).2.1
        · exact (leave_backups_fields _ _).2.2.2.1
  | dmConfirm uid =>
      simp only [step, dm_confirm]
      split
      · refine sherpasBound_congr r _ h ?_ ?_
        · exact (append_unique_players_fields r uid).1
        · exact (append_unique_players_fields r uid).2.1
      · refine sherpasBound_congr r _ h ?_ ?_
        · exact (append_unique_backups_fields r uid).2.1
        · exact (append_unique_backups_fields r uid).2.2.1
  | dmDecline uid =>
      simp only [step, dm_decline]
      refine sherpasBound_congr r _ h ?_ ?_
      · exact (leave_players_fields _ _).1
      · exact (leave_players_fields _ _).2.2.1
  | sherpaConfirm uid =>
      simp only [step, sherpa_confirm]
      split
      · exact h
      · split
        · rename_i hcard
          rcases (append_unique_sherpas_cases r uid).1 with hc | hc
          · refine sherpasBound_congr r _ h hc ?_
            exact (append_unique_sherpas_cases r uid).2.2.1
          · have hres := (append_unique_sherpas_cases r uid).2.2.1
            simp only [sherpasBound, hc, hres] at *
            calc (insert uid r.sherpas).card ≤ r.sherpas.card + 1 :=
                  Finset.card_insert_le _ _
              _ ≤ r.reserved_sherpas := by omega
        · refine sherpasBound_congr r _ h ?_ ?_
          · exact (append_unique_sbackup_fields r uid).2.1
          · exact (append_unique_sbackup_fields r uid).2.2.1
  | sherpaDecline uid =>
      simp only [step, sherpa_decline, sherpasBound]
      calc (r.sherpas.erase uid).card ≤ r.sherpas.card := Finset.card_erase_le
        _ ≤ r.reserved_sherpas := h
  | alertCheck uid a =>
      simp only [step, alert_react_check]
      split
      · exact h
      · split
        · split
          · rename_i hg
            simp only [sherpasBound]
            rw [Finset.card_insert_of_not_mem hg.2]
            omega
          · exact sherpasBound_congr r _ h rfl rfl
        · exact h
  | alertCycle uid a =>
      simp only [step, alert_react_cycle]
      split
      · exact h
      · split
        · exact sherpasBound_congr r _ h rfl rfl
        · exact h
  | promote uid a =>
      exact absurd rfl (hnp uid a)
  | addCmd uid a =>
      simp only [step, add_event]
      split
      · exact h
      · split
        · exact h
        · split
          · exact sherpasBound_congr r _ h rfl rfl
          · exact sherpasBound_congr r _ h rfl rfl
  | removeCmd uid a =>
      refine sherpasBound_congr r _ h ?_ ?_
      · exact (sherpas_remove_event uid a r).1
      · exact (sherpas_remove_event uid a r).2
  | leaveCmd uid =>
      refine sherpasBound_congr r _ h ?_ ?_
      · exact (sherpas_remove_event uid true r).1
      · exact (sherpas_remove_event uid true r).2
  | tickEv lfg now =>
      simp only [step, tick]
      cases hst : r.start_ts with
      | none => exact h
      | some ts =>
          have h1 : sherpasBound (tick_open lfg now ts r).1 := by
            simp only [tick_open]
            split
            · split
              · refine sherpasBound_congr r _ h ?_ ?_
                · rw [(afb_fields _).1, (afb_fields _).1]
                · rw [(afb_fields _).2.1, (afb_fields _).2.1]
              · refine sherpasBound_congr r _ h ?_ ?_
                · rw [(afb_fields _).1]
                · rw [(afb_fields _).2.1]
            · exact h
          have h2 : sherpasBound (tick_r2h now ts (tick_open lfg now ts r).1).1 := by
            simp only [tick_r2h]
            split
            · exact sherpasBound_congr _ _ h1 rfl rfl
            · exact h1
          have h3 : sherpasBound
              (tick_r30 now ts (tick_r2h now ts (tick_open lfg now ts r).1).1).1 := by
            simp only [tick_r30]
            split
            · exact sherpasBound_congr _ _ h2 rfl rfl
            · exact h2
          simp only [tick_r0]
          split
          · exact sherpasBound_congr _ _ h3 rfl rfl
          · exact h3

/-- C9: Autofill idempotence — running `_autofill_from_backups` a second
time with no intervening mutation leaves the roster unchanged and
promotes nobody (`moved = []`). -/
theorem autofill_idempotent (r : Roster) :
    autofill_from_backups (autofill_from_backups r).1 =
      ((autofill_from_backups r).1, []) := by
  cases r with
  | mk players backups sherpas sherpa_backup capacity reserved so st a b c ch =>
      have hpost := autofill_post (capacity - reserved) backups players
      simp only [autofill_from_backups, playerSlots] at *
      rw [autofill_stable (capacity - reserved) _ _ hpost]

/-- C1: the cross-list exclusivity invariant is broken by the code.  On
`rAlert` (which satisfies the invariant), the sherpa-alert ✅ handler —
despite its own `Dedup across lists` comment — adds member 1, already
in `sherpas`, to `sherpa_backup` as well, leaving them in two lists.
(`/promote` likewise adds a user to `sherpas` without checking
`players`/`backups`.) -/
theorem alert_recheck_breaks_exclusivity :
    crossListExclusive rAlert ∧
    (1 : Nat) ∈ (step (Event.alertCheck 1 true) rAlert).sherpas ∧
    (1 : Nat) ∈ (step (Event.alertCheck 1 true) rAlert).sherpa_backup ∧
    ¬ crossListExclusive (step (Event.alertCheck 1 true) rAlert) := by
  decide

/-- C2 counterexample: `/promote` of member 2 on `rPromote` (whose only
reserved sherpa slot is already held) pushes `sherpas` past
`reserved_sherpas`, so the claim "len(sherpas) ≤ reserved sherpa slots
after any transition" is false as stated. -/
theorem promote_exceeds_reserved :
    playersBound rPromote ∧ sherpasBound rPromote ∧
    ¬ sherpasBound (step (Event.promote 2 true) rPromote) := by
  decide

/-- C3: Autofill FIFO fairness — on any state whose `backups` list is
duplicate-free and disjoint from `players` (what the cross-list
invariant provides after a Leave), `_autofill_from_backups`'s loop
moves exactly the first `player_slots − len(players)` backups, in
order, to the tail of `players`, leaving the remaining backups in their
relative order; with one open slot only the head is promoted. -/
theorem autofill_fifo (slots : Nat) (backups : List Nat) : ∀ players : List Nat,
    (∀ b ∈ backups, b ∉ players) → backups.Nodup →
    autofill slots players backups =
      (players ++ backups.take (slots - players.length),
       backups.drop (slots - players.length),
       backups.take (slots - players.length)) := by
  induction backups with
  | nil => intro p _ _; simp [autofill]
  | cons x rest ih =>
      intro p hd hn
      by_cases hlt : p.length < slots
      · have hx : x ∉ p := hd x (by simp)
        have hd2 : ∀ b ∈ rest, b ∉ p ++ [x] := by
          intro b hb
          simp only [List.mem_append, List.mem_singleton]
          push_neg
          refine ⟨hd b (by simp [hb]), ?_⟩
          intro hbx
          subst hbx
          exact (List.nodup_cons.mp hn).1 hb
        have hn2 := (List.nodup_cons.mp hn).2
        have hrec := ih (p ++ [x]) hd2 hn2
        have hk : slots - p.length = (slots - ((p ++ [x]).length)) + 1 := by
          simp only [List.length_append, List.length_cons, List.length_nil]
          omega
        simp only [autofill, hlt, if_true, hx, if_false, hrec, hk,
          List.take_succ_cons, List.drop_succ_cons, List.append_assoc,
          List.singleton_append]
      · have hk : slots - p.length = 0 := by omega
        simp [autofill, hlt, hk]

/-- Witness for `autofill_fifo`: four player slots, three filled, one
open; backups `[10, 20, 30]` — exactly the head `10` is promoted and
`[20, 30]` stay behind in order. -/
theorem autofill_fifo_witness :
    autofill 4 [1, 2, 3] [10, 20, 30] = ([1, 2, 3, 10], [20, 30], [10]) := by
  have h := autofill_fifo 4 [10, 20, 30] [1, 2, 3] (by decide) (by decide)
  simpa using h

/-- C2 (amended): from a roster satisfying both capacity bounds, every
modelled transition preserves `len(players) ≤ playerSlots`, and every
transition other than `/promote` also preserves
`len(sherpas) ≤ reserved_sherpas`; `/promote` adds the promoted user to
`sherpas` with no reserved-slot check. -/
theorem capacity_bounds_amended (ev : Event) (r : Roster)
    (hp : playersBound r) (hs : sherpasBound r) :
    playersBound (step ev r) ∧
    ((∀ u a, ev ≠ Event.promote u a) → sherpasBound (step ev r)) := by
  refine ⟨playersBound_step ev r hp, fun hnp => sherpasBound_step ev r hs hnp⟩

/-- Witness for `capacity_bounds_amended` at a concrete transition and
roster. -/
theorem capacity_bounds_amended_witness :
    playersBound (step (Event.dmConfirm 3) rPromote) ∧
    sherpasBound (step (Event.dmConfirm 3) rPromote) := by
  have h := capacity_bounds_amended (Event.dmConfirm 3) rPromote
    (by decide) (by decide)
  refine ⟨h.1, h.2 ?_⟩
  intro u a hcontra
  exact Event.noConfusion hcontra

/-- C4 counterexample: member 5 holds the sherpa role, is absent from
all four lists, and reacts ✅ on forming-state `rForming` — the handler
removes the reaction and changes nothing, so the member is **not**
appended to `backups` as the claim states for every non-bot member. -/
theorem sherpa_forming_join_noop :
    rForming.signups_open = false ∧
    user_in_any_event_list rForming 5 = none ∧
    step (Event.reactAdd Emoji.check 5 true) rForming = rForming ∧
    (step (Event.reactAdd Emoji.check 5 true) rForming).backups = [] := by
  decide

/-- C4 (amended): while `signups_open` is false, a ✅ reaction on the
main event embed never touches `players`; for a member **without** the
sherpa role it appends the member to `backups` exactly when they are
absent from all four lists and is a no-op otherwise, and for a member
with the sherpa role it is always a no-op (the reaction is removed and
redirected to the sherpa signup). -/
theorem forming_join_soft_amended (r : Roster) (uid : Nat) (s : Bool)
    (h : r.signups_open = false) :
    (step (Event.reactAdd Emoji.check uid s) r).players = r.players ∧
    (s = false → user_in_any_event_list r uid = none →
      step (Event.reactAdd Emoji.check uid s) r =
        { r with backups := r.backups ++ [uid] }) ∧
    (s = false → user_in_any_event_list r uid ≠ none →
      step (Event.reactAdd Emoji.check uid s) r = r) ∧
    (s = true → step (Event.reactAdd Emoji.check uid s) r = r) := by
  cases s with
  | true =>
      refine ⟨?_, ?_, ?_, ?_⟩ <;> simp [step, react_add]
  | false =>
      by_cases hm : user_in_any_event_list r uid = none
      · refine ⟨?_, ?_, ?_, ?_⟩ <;> simp [step, react_add, h, hm]
      · refine ⟨?_, ?_, ?_, ?_⟩ <;> simp [step, react_add, h, hm]

/-- Witness for `forming_join_soft_amended`: a non-sherpa member absent
from all lists is appended to `backups` of `rForming` and `players`
stays empty. -/
theorem forming_join_soft_witness :
    (step (Event.reactAdd Emoji.check 5 false) rForming).players = [] ∧
    step (Event.reactAdd Emoji.check 5 false) rForming =
      { rForming with backups := [5] } := by
  have h := forming_join_soft_amended rForming 5 false rfl
  refine ⟨h.1, ?_⟩
  have h2 := h.2.1 rfl (by decide)
  simpa [rForming] using h2

theorem tick_r2h_fields (now ts : Int) (r : Roster) :
    (tick_r2h now ts r).1.signups_open = r.signups_open ∧
    (tick_r2h now ts r).1.players = r.players ∧
    (tick_r2h now ts r).1.backups = r.backups := by
  unfold tick_r2h
  split <;> exact ⟨rfl, rfl, rfl⟩

theorem tick_r30_fields (now ts : Int) (r : Roster) :
    (tick_r30 now ts r).1.signups_open = r.signups_open ∧
    (tick_r30 now ts r).1.players = r.players ∧
    (tick_r30 now ts r).1.backups = r.backups := by
  unfold tick_r30
  split <;> exact ⟨rfl, rfl, rfl⟩

theorem tick_r0_fields (now ts : Int) (r : Roster) :
    (tick_r0 now ts r).1.signups_open = r.signups_open ∧
    (tick_r0 now ts r).1.players = r.players ∧
    (tick_r0 now ts r).1.backups = r.backups := by
  unfold tick_r0
  split <;> exact ⟨rfl, rfl, rfl⟩

/-- C5 counterexample: `rFull` has all four player slots taken at the
T−2h tick (`now = 3000 ≥ start − 7200`); the scheduler's open branch
requires `len(players) < player_slots`, so signups stay closed and no
slots-open announcement is posted — contradicting the claim that
`signupsOpen` becomes true and the announcement is still sent. -/
theorem open_signups_skipped_when_full :
    rFull.players.length = playerSlots rFull ∧
    rFull.signups_open = false ∧
    ((3000 : Int) ≥ 10000 - 7200) ∧
    (tick true 3000 rFull).1.signups_open = false ∧
    (tick true 3000 rFull).2.announced = false := by
  decide

/-- C5 (amended): when the tick reaches `now ≥ start − 2h` on a roster
whose players list is already at `player_slots`, the open-signups
branch does **not** fire: `signups_open`, `players` and `backups` are
left unchanged and no announcement is posted.  Opening (with the
announcement, when the LFG channel is configured) happens exactly when
`len(players) < player_slots`. -/
theorem open_signups_requires_free_slot (lfg : Bool) (now ts : Int) (r : Roster)
    (hts : r.start_ts = some ts) :
    (playerSlots r ≤ r.players.length →
      (tick lfg now r).1.signups_open = r.signups_open ∧
      (tick lfg now r).2.announced = false ∧
      (tick lfg now r).1.players = r.players ∧
      (tick lfg now r).1.backups = r.backups) ∧
    (r.signups_open = false → now ≥ ts - 7200 → r.players.length < playerSlots r →
      (tick lfg now r).1.signups_open = true ∧
      (tick lfg now r).2.announced = lfg) := by
  constructor
  · intro hfull
    have ho : tick_open lfg now ts r = (r, false) := by
      unfold tick_open
      rw [if_neg]
      intro hc
      omega
    refine ⟨?_, ?_, ?_, ?_⟩
    · simp only [tick, hts, ho]
      rw [(tick_r0_fields _ _ _).1, (tick_r30_fields _ _ _).1, (tick_r2h_fields _ _ _).1]
    · simp only [tick, hts, ho]
    · simp only [tick, hts, ho]
      rw [(tick_r0_fields _ _ _).2.1, (tick_r30_fields _ _ _).2.1,
        (tick_r2h_fields _ _ _).2.1]
    · simp only [tick, hts, ho]
      rw [(tick_r0_fields _ _ _).2.2, (tick_r30_fields _ _ _).2.2,
        (tick_r2h_fields _ _ _).2.2]
  · intro hso hnow hlt
    have hopen : (tick_open lfg now ts r).1.signups_open = true ∧
        (tick_open lfg now ts r).2 = lfg := by
      unfold tick_open
      rw [if_pos ⟨hso, hnow, hlt⟩]
      cases lfg <;> exact ⟨rfl, rfl⟩
    simp only [tick, hts]
    refine ⟨?_, hopen.2⟩
    rw [(tick_r0_fields _ _ _).1, (tick_r30_fields _ _ _).1, (tick_r2h_fields _ _ _).1]
    exact hopen.1

/-- Witness for `open_signups_requires_free_slot`: the full roster is
left closed and unannounced; with one slot open, the same tick opens
signups and announces. -/
theorem open_signups_requires_free_slot_witness :
    (tick true 3000 rFull).1.signups_open = false ∧
    (tick true 3000 rPartial).1.signups_open = true ∧
    (tick true 3000 rPartial).2.announced = true := by
  have h2 := (open_signups_requires_free_slot true 3000 10000 rFull rfl).1
    (by decide)
  have h1 := (open_signups_requires_free_slot true 3000 10000 rPartial rfl).2
    rfl (by decide) (by decide)
  exact ⟨h2.1.trans rfl, h1.1, h1.2⟩

theorem tick_none (lfg : Bool) (now : Int) (r : Roster)
    (h : r.start_ts = none) : tick lfg now r = (r, ⟨false, []⟩) := by
  simp [tick, h]

theorem runTicks_none (lfg : Bool) (ts : List Int) : ∀ r : Roster,
    r.start_ts = none → runTicks lfg r ts = (r, []) := by
  induction ts with
  | nil => intro r _; rfl
  | cons t rest ih =>
      intro r h
      simp [runTicks, tick_none lfg t r h, ih r h]

theorem tick_open_flags (lfg : Bool) (now ts : Int) (r : Roster) :
    (tick_open lfg now ts r).1.r_2h = r.r_2h ∧
    (tick_open lfg now ts r).1.r_30m = r.r_30m ∧
    (tick_open lfg now ts r).1.r_0m = r.r_0m := by
  unfold tick_open
  split
  · split <;> exact ⟨rfl, rfl, rfl⟩
  · exact ⟨rfl, rfl, rfl⟩

theorem tick_r2h_cases (now ts : Int) (r : Roster) :
    (r.r_2h = false ∧
      tick_r2h now ts r = ({ r with r_2h := true }, [RLabel.two_h])) ∨
    tick_r2h now ts r = (r, []) := by
  unfold tick_r2h
  split
  · rename_i hc
    exact Or.inl ⟨hc.1, rfl⟩
  · exact Or.inr rfl

theorem tick_r30_cases (now ts : Int) (r : Roster) :
    (r.r_30m = false ∧
      tick_r30 now ts r = ({ r with r_30m := true }, [RLabel.thirty_m])) ∨
    tick_r30 now ts r = (r, []) := by
  unfold tick_r30
  split
  · rename_i hc
    exact Or.inl ⟨hc.1, rfl⟩
  · exact Or.inr rfl

theorem tick_r0_cases (now ts : Int) (r : Roster) :
    (r.r_0m = false ∧
      tick_r0 now ts r = ({ r with r_0m := true }, [RLabel.start_l])) ∨
    tick_r0 now ts r = (r, []) := by
  unfold tick_r0
  split
  · rename_i hc
    exact Or.inl ⟨hc.1, rfl⟩
  · exact Or.inr rfl

theorem tick_count_flag (lfg : Bool) (now : Int) (r : Roster) (l : RLabel) :
    (tick lfg now r).2.reminders.count l +
      (if flagOf l (tick lfg now r).1 then 0 else 1) ≤
      (if flagOf l r then 0 else 1) := by
  cases hst : r.start_ts with
  | none => simp [tick, hst]
  | some ts =>
      simp only [tick, hst, List.count_append]
      have ho := tick_open_flags lfg now ts r
      rcases tick_r2h_cases now ts (tick_open lfg now ts r).1 with ⟨h2f, h2⟩ | h2 <;>
        rcases tick_r30_cases now ts
          (tick_r2h now ts (tick_open lfg now ts r).1).1 with ⟨h3f, h3⟩ | h3 <;>
        rcases tick_r0_cases now ts
          (tick_r30 now ts
            (tick_r2h now ts (tick_open lfg now ts r).1).1).1 with ⟨h4f, h4⟩ | h4 <;>
        cases l <;>
        simp_all [flagOf, List.count_cons, List.count_nil]

theorem runTicks_count (lfg : Bool) (ts : List Int) : ∀ (r : Roster) (l : RLabel),
    ((runTicks lfg r ts).2.count l) ≤ (if flagOf l r then 0 else 1) := by
  induction ts with
  | nil =>
      intro r l
      simp [runTicks]
  | cons t rest ih =>
      intro r l
      simp only [runTicks, List.count_append]
      have h1 := tick_count_flag lfg t r l
      have h2 := ih (tick lfg t r).1 l
      cases hf1 : flagOf l r <;> cases hf2 : flagOf l (tick lfg t r).1 <;>
        simp_all

/-- C6: each of the three reminders fires at most once across any
sequence of scheduler ticks — once the matching one-shot flag is set
it never re-fires — and a roster with no `start_ts` is skipped
silently by every tick (state unchanged, nothing fired). -/
theorem reminders_one_shot (lfg : Bool) (r : Roster) (ts : List Int) :
    (r.start_ts = none → runTicks lfg r ts = (r, [])) ∧
    (∀ l, ((runTicks lfg r ts).2.count l) ≤ if flagOf l r then 0 else 1) :=
  ⟨fun h => runTicks_none lfg ts r h, fun l => runTicks_count lfg ts r l⟩

/-- Witness for `reminders_one_shot`: a start-less roster is untouched
by three ticks, and on `rFull` (all flags clear) the 2h reminder fires
at most once over the same ticks. -/
theorem reminders_one_shot_witness :
    runTicks true rNoStart [0, 5000, 9000] = (rNoStart, []) ∧
    ((runTicks true rFull [0, 5000, 9000]).2.count RLabel.two_h ≤ 1) := by
  refine ⟨(reminders_one_shot true rNoStart [0, 5000, 9000]).1 rfl, ?_⟩
  have h := (reminders_one_shot true rFull [0, 5000, 9000]).2 RLabel.two_h
  simpa [flagOf, rFull] using h

theorem queueAppend_count_other (act : String) (uid v : Nat) (hv : v ≠ uid) :
    ∀ qs, queuesCountFor (queueAppend qs act uid) v = queuesCountFor qs v := by
  intro qs
  induction qs with
  | nil =>
      simp [queueAppend, queuesCountFor, List.countP_cons, hv]
  | cons p rest ih =>
      cases p with
      | mk k l =>
          by_cases hk : k = act
          · simp [queueAppend, hk, queuesCountFor, List.countP_cons, hv]
          · simp only [queueAppend, hk, if_false, queuesCountFor,
              List.countP_cons] at *
            omega

theorem queueAppend_count_self (act : String) (uid : Nat) :
    ∀ qs, queuesCountFor (queueAppend qs act uid) uid ≤ queuesCountFor qs uid + 1 := by
  intro qs
  induction qs with
  | nil =>
      simp [queueAppend, queuesCountFor, List.countP_cons]
  | cons p rest ih =>
      cases p with
      | mk k l =>
          by_cases hk : k = act
          · by_cases hul : uid ∈ l
            · simp [queueAppend, hk, queuesCountFor, List.countP_cons, hul]
            · simp [queueAppend, hk, queuesCountFor, List.countP_cons, hul]
          · simp only [queueAppend, hk, if_false, queuesCountFor,
              List.countP_cons] at *
            omega

theorem remove_from_queue_count (qs : List (String × List Nat))
    (act : String) (uid v : Nat) :
    queuesCountFor (remove_from_queue qs act uid) v ≤ queuesCountFor qs v := by
  unfold remove_from_queue queuesCountFor
  rw [List.countP_map]
  apply List.countP_mono_left
  intro p _ hp
  simp only [Function.comp_apply, decide_eq_true_eq] at *
  by_cases hk : p.1 = act
  · simp only [hk, if_true] at hp
    exact (List.mem_filter.mp hp).1
  · simpa [hk] using hp

/-- C7 counterexample: member 5 already waits in both queues of `qs0`;
`/add` of member 5 to a third queue has no max-2 check and leaves the
member in 3 distinct queues, falsifying the claim that every
waiting-queue operation preserves the max-2 rule. -/
theorem add_cmd_exceeds_two_queues :
    queuesCountFor qs0 5 = 2 ∧
    queuesCountFor (add_queue qs0 "pit" 5) 5 = 3 := by
  decide

/-- C7 (amended): `/join` enforces the at-most-2-queues rule (it rejects
a member already in 2 queues), and the `/leave` / `/remove` queue
mutation only ever shrinks queues, so all three preserve the invariant;
`/add` performs no such check and can put a member in a third queue. -/
theorem queue_ops_preserve_max_two (qs : List (String × List Nat))
    (act : String) (uid : Nat) (h : maxTwoQueues qs) :
    maxTwoQueues (join_queue qs act uid) ∧
    maxTwoQueues (remove_from_queue qs act uid) := by
  constructor
  · unfold join_queue
    split
    · exact h
    · split
      · exact h
      · rename_i hcnt
        intro v
        by_cases hv : v = uid
        · subst hv
          have h1 := queueAppend_count_self act v qs
          have h2 : queuesCountFor qs v ≤ 1 := by
            have : (queuesWith qs v).length = queuesCountFor qs v := by
              simp [queuesWith, queuesCountFor, List.length_map,
                List.countP_eq_length_filter]
            omega
          omega
        · rw [queueAppend_count_other act uid v hv qs]
          exact h v
  · intro v
    exact le_trans (remove_from_queue_count qs act uid v) (h v)

/-- Witness for `queue_ops_preserve_max_two` on the concrete `qs0`. -/
theorem queue_ops_preserve_max_two_witness :
    maxTwoQueues (join_queue qs0 "pit" 9) ∧
    maxTwoQueues (remove_from_queue qs0 "vault" 5) := by
  have hinv : maxTwoQueues qs0 := by
    intro uid
    exact le_trans (List.countP_le_length _) (by decide)
  exact queue_ops_preserve_max_two qs0 "pit" 9 hinv |>.imp
    (fun h => h) (fun _ => (queue_ops_preserve_max_two qs0 "vault" 5 hinv).2)

theorem dictGet_dictSet_self (k v : Nat) :
    ∀ m : List (Nat × Nat), dictGet (dictSet m k v) k = some v := by
  intro m
  induction m with
  | nil => simp [dictSet, dictGet, List.find?]
  | cons p rest ih =>
      cases p with
      | mk k1 v1 =>
          by_cases hp : k1 = k
          · simp [dictSet, hp, dictGet, List.find?]
          · simp only [dictSet, hp, if_false]
            simpa [dictGet, List.find?, hp] using ih

theorem dictGet_dictSet_other (k k1 v : Nat) (h : k1 ≠ k) :
    ∀ m : List (Nat × Nat), dictGet (dictSet m k v) k1 = dictGet m k1 := by
  have h2 : k ≠ k1 := Ne.symm h
  intro m
  induction m with
  | nil => simp [dictSet, dictGet, List.find?, h2]
  | cons p rest ih =>
      cases p with
      | mk k2 v2 =>
          by_cases hp : k2 = k
          · subst hp
            simp [dictSet, dictGet, List.find?, h2]
          · by_cases hq : k2 = k1
            · subst hq
              simp [dictSet, hp, dictGet, List.find?]
            · simp only [dictSet, hp, if_false]
              simpa [dictGet, List.find?, hq] using ih

theorem heapGet_heapUpdate_self (ref : Nat) (f : Roster → Roster) :
    ∀ (h : List (Nat × Roster)) (r0 : Roster), heapGet h ref = some r0 →
      heapGet (heapUpdate h ref f) ref = some (f r0) := by
  intro h
  induction h with
  | nil => intro r0 hr; simp [heapGet, List.find?] at hr
  | cons p rest ih =>
      intro r0 hr
      cases p with
      | mk k1 q1 =>
          by_cases hp : k1 = ref
          · simp [heapGet, List.find?, hp] at hr
            simp [heapUpdate, heapGet, List.find?, hp, hr]
          · simp only [heapGet, List.find?, hp] at hr
            simp only [heapUpdate, List.map_cons, if_neg hp]
            simp only [heapGet, List.find?, hp]
            simp only [heapUpdate] at ih
            exact ih r0 (by simpa [heapGet, List.find?, hp] using hr)

/-- C8: surface-loss recovery preserves roster identity — after
`on_message_delete` runs for a tracked message, the old and the new
message id both resolve to the same roster reference, the roster's
stored `channel_id` is re-pointed at the recreated message's channel,
and a subsequent Leave addressed through either identifier produces
the identical state. -/
theorem surface_recovery_preserves_identity (st : BotState)
    (mid new_mid new_ch ref : Nat) (h : dictGet st.schedules mid = some ref) :
    dictGet (on_message_delete st mid new_mid new_ch).schedules mid = some ref ∧
    dictGet (on_message_delete st mid new_mid new_ch).schedules new_mid = some ref ∧
    (∀ r0, heapGet st.heap ref = some r0 →
      heapGet (on_message_delete st mid new_mid new_ch).heap ref =
        some { r0 with channel_id := some new_ch }) ∧
    (∀ uid, leaveVia (on_message_delete st mid new_mid new_ch) mid uid =
      leaveVia (on_message_delete st mid new_mid new_ch) new_mid uid) := by
  have hmid : dictGet (on_message_delete st mid new_mid new_ch).schedules mid
      = some ref := by
    simp only [on_message_delete, h]
    exact dictGet_dictSet_self mid ref _
  have hnew : dictGet (on_message_delete st mid new_mid new_ch).schedules new_mid
      = some ref := by
    simp only [on_message_delete, h]
    by_cases he : new_mid = mid
    · subst he
      exact dictGet_dictSet_self new_mid ref _
    · rw [dictGet_dictSet_other mid new_mid ref he _]
      exact dictGet_dictSet_self new_mid ref _
  refine ⟨hmid, hnew, ?_, ?_⟩
  · intro r0 hr
    simp only [on_message_delete, h]
    exact heapGet_heapUpdate_self ref _ st.heap r0 hr
  · intro uid
    simp only [leaveVia, hmid, hnew]

/-- Witness for `surface_recovery_preserves_identity` on a one-event
bot state. -/
theorem surface_recovery_witness :
    dictGet (on_message_delete ⟨[(11, 0)], [(0, rFull)]⟩ 11 42 9).schedules 11
      = some 0 ∧
    dictGet (on_message_delete ⟨[(11, 0)], [(0, rFull)]⟩ 11 42 9).schedules 42
      = some 0 ∧
    heapGet (on_message_delete ⟨[(11, 0)], [(0, rFull)]⟩ 11 42 9).heap 0
      = some { rFull with channel_id := some 9 } := by
  have h := surface_recovery_preserves_identity ⟨[(11, 0)], [(0, rFull)]⟩
    11 42 9 0 (by decide)
  exact ⟨h.1, h.2.1, h.2.2.1 rFull rfl⟩

theorem uniq_participants_mem (s : Finset Nat) (l : List Nat) :
    ∀ (seen : Finset Nat) (u : Nat), u ∈ uniq_participants s seen l →
      u ∈ l ∧ u ∉ s ∧ u ∉ seen := by
  induction l with
  | nil =>
      intro seen u hu
      simp [uniq_participants] at hu
  | cons x rest ih =>
      intro seen u hu
      by_cases hs : x ∈ s
      · have h2 := ih seen u (by simpa [uniq_participants, hs] using hu)
        exact ⟨List.mem_cons_of_mem _ h2.1, h2.2⟩
      · by_cases hseen : x ∈ seen
        · have h2 := ih seen u (by simpa [uniq_participants, hs, hseen] using hu)
          exact ⟨List.mem_cons_of_mem _ h2.1, h2.2⟩
        · have hu2 : u = x ∨ u ∈ uniq_participants s (insert x seen) rest := by
            simpa [uniq_participants, hs, hseen] using hu
          rcases hu2 with rfl | hu2
          · exact ⟨List.mem_cons_self _ _, hs, hseen⟩
          · have h2 := ih (insert x seen) u hu2
            have h3 : u ∉ seen := fun hc => h2.2.2 (Finset.mem_insert_of_mem hc)
            exact ⟨List.mem_cons_of_mem _ h2.1, h2.2.1, h3⟩

theorem uniq_participants_nodup (s : Finset Nat) (l : List Nat) :
    ∀ seen : Finset Nat, (uniq_participants s seen l).Nodup := by
  induction l with
  | nil =>
      intro seen
      simp [uniq_participants]
  | cons x rest ih =>
      intro seen
      by_cases hs : x ∈ s
      · simpa [uniq_participants, hs] using ih seen
      · by_cases hseen : x ∈ seen
        · simpa [uniq_participants, hs, hseen] using ih seen
        · simp only [uniq_participants, if_neg hs, if_neg hseen, List.nodup_cons]
          refine ⟨?_, ih (insert x seen)⟩
          intro hx
          exact (uniq_participants_mem s rest (insert x seen) x hx).2.2
            (Finset.mem_insert_self _ _)

/-- C10: `/schedule` pre-slot construction — the built roster satisfies
the capacity bound; pre-slotted sherpas are excluded from both players
and backups; players and backups are duplicate-free and disjoint; every
listed member is the promoter or one of the given participants; and
when the promoter was not pre-listed (and is not a sherpa) they head
the player list whenever there is at least one player slot. -/
theorem schedule_initial_spec (cap : Nat) (req : Int) (promoter : Nat)
    (sherpa_ids : Finset Nat) (ids : List Nat) (sts : Option Int) (ch : Nat) :
    playersBound (schedule_initial cap req promoter sherpa_ids ids sts ch) ∧
    (∀ u ∈ sherpa_ids,
      u ∉ (schedule_initial cap req promoter sherpa_ids ids sts ch).players ∧
      u ∉ (schedule_initial cap req promoter sherpa_ids ids sts ch).backups) ∧
    (schedule_initial cap req promoter sherpa_ids ids sts ch).players.Nodup ∧
    (schedule_initial cap req promoter sherpa_ids ids sts ch).backups.Nodup ∧
    (∀ u ∈ (schedule_initial cap req promoter sherpa_ids ids sts ch).players,
      u ∉ (schedule_initial cap req promoter sherpa_ids ids sts ch).backups) ∧
    (∀ u, u ∈ (schedule_initial cap req promoter sherpa_ids ids sts ch).players ∨
        u ∈ (schedule_initial cap req promoter sherpa_ids ids sts ch).backups →
      u = promoter ∨ u ∈ ids) ∧
    (promoter ∉ ids → promoter ∉ sherpa_ids →
      0 < playerSlots (schedule_initial cap req promoter sherpa_ids ids sts ch) →
      (schedule_initial cap req promoter sherpa_ids ids sts ch).players.head?
        = some promoter) := by
  have huniq : (uniq_participants sherpa_ids ∅
      (if promoter ∈ ids then ids else promoter :: ids)).Nodup :=
    uniq_participants_nodup _ _ _
  simp only [schedule_initial, playersBound, playerSlots]
  refine ⟨?_, ?_, ?_, ?_, ?_, ?_, ?_⟩
  · exact List.length_take_le _ _
  · intro u hu
    constructor
    · intro hmem
      exact (uniq_participants_mem _ _ _ u (List.take_subset _ _ hmem)).2.1 hu
    · intro hmem
      exact (uniq_participants_mem _ _ _ u (List.drop_subset _ _ hmem)).2.1 hu
  · exact (List.take_sublist _ _).nodup huniq
  · exact (List.drop_sublist _ _).nodup huniq
  · intro u hu hc
    exact List.disjoint_take_drop huniq (le_refl _) hu hc
  · intro u hu
    have hm : u ∈ uniq_participants sherpa_ids ∅
        (if promoter ∈ ids then ids else promoter :: ids) := by
      rcases hu with h | h
      · exact List.take_subset _ _ h
      · exact List.drop_subset _ _ h
    have hin := (uniq_participants_mem _ _ _ u hm).1
    by_cases hpi : promoter ∈ ids
    · rw [if_pos hpi] at hin
      exact Or.inr hin
    · rw [if_neg hpi] at hin
      rcases List.mem_cons.mp hin with rfl | hin2
      · exact Or.inl rfl
      · exact Or.inr hin2
  · intro hpi hps hpos
    rw [if_neg hpi]
    have hu : uniq_participants sherpa_ids ∅ (promoter :: ids)
        = promoter :: uniq_participants sherpa_ids {promoter} ids := by
      simp [uniq_participants, hps]
    rw [hu]
    rcases Nat.exists_eq_add_of_lt hpos with ⟨n, hn⟩
    rw [Nat.zero_add] at hn
    rw [hn, List.take_succ_cons, List.head?_cons]

/-- Witness for `schedule_initial_spec`: capacity 6, two reserved
sherpa slots, sherpa 1 pre-slotted, participants [3, 4] — promoter 9
heads the players and the capacity bound holds. -/
theorem schedule_initial_spec_witness :
    playersBound (schedule_initial 6 2 9 {1} [3, 4] (some 10000) 100) ∧
    (schedule_initial 6 2 9 {1} [3, 4] (some 10000) 100).players.head?
      = some 9 := by
  have h := schedule_initial_spec 6 2 9 {1} [3, 4] (some 10000) 100
  exact ⟨h.1, h.2.2.2.2.2.2 (by decide) (by decide) (by decide)⟩

end GoonBot
